import Mathlib

/-!
Verification development for the lucid-email-esp repository.

The repository's analysis core consists of pure TypeScript functions:
header normalization (`header-utils.ts`), the Received-chain parser
(`received-parser.ts`, exporting `parseReceivingChainWithWarnings`),
signal extraction (`auth-parser.ts`) and the weighted ESP classifier
(`esp-detector.ts`, exporting `detectESP`).

Strings are modelled as `List Char`.  JavaScript regular expressions are
modelled by specialized recursive matchers that reproduce the leftmost
match / lazy-vs-greedy preference order of the concrete patterns that
appear in the source, on the inputs the source feeds them (in particular
the hop-grammar regex `RX` is only ever applied to strings whose
whitespace has been collapsed to single ASCII spaces, so on those inputs
a JS whitespace class matches exactly one space).  The JavaScript `Date`
constructor is a host builtin, so the chain parser is parameterized by a
`dateParse : List Char → Option Int` function producing epoch
milliseconds; all chain-level theorems are proved for every such
function.
-/

/-- JS whitespace class `\s` membership, restricted to the ASCII control
    and space characters that can occur in the inputs considered. -/
def isJsWs (c : Char) : Bool :=
  c = ' ' || c = '\t' || c = '\n' || c = '\r' || c = '\x0b' || c = '\x0c'

/-- Horizontal whitespace `[ \t]`, the fold continuation class used by
    `unfoldHeaders`. -/
def isWSP (c : Char) : Bool := c = ' ' || c = '\t'

/-- Scanner for the global replace `text.replace(/\r\n[ \t]+/g, ' ')`.
    The JS global replace scans left to right; a match consumes the CRLF
    together with the maximal run of horizontal whitespace (greedy
    `[ \t]+`) and emits a single space, and scanning resumes after the
    consumed run.  The `skip` flag is true exactly while the scanner is
    inside that maximal whitespace run (a fold can never begin with a
    whitespace character, so dropping the run one character at a time is
    the same as dropping it at once). -/
def unfoldAux : Bool → List Char → List Char
  | _, [] => []
  | _, '\r' :: '\n' :: w :: r =>
      if isWSP w then ' ' :: unfoldAux true r
      else '\r' :: unfoldAux false ('\n' :: w :: r)
  | skip, c :: rest =>
      if skip && isWSP c then unfoldAux true rest
      else c :: unfoldAux false rest

/-- Models `unfoldHeaders` from `header-utils.ts`:
    `text.replace(/\r\n[ \t]+/g, ' ')`. -/
def unfoldHeaders (l : List Char) : List Char := unfoldAux false l

/-- True when the list begins with `'\n'` followed by horizontal
    whitespace (the tail of a fold). -/
def startsNlWsp : List Char → Bool
  | '\n' :: w :: _ => isWSP w
  | _ => false

/-- True when the list begins with a fold: CRLF followed by horizontal
    whitespace. -/
def startsFold : List Char → Bool
  | '\r' :: l => startsNlWsp l
  | _ => false

/-- True when the list contains a fold (`\r\n[ \t]`) anywhere. -/
def hasFold : List Char → Bool
  | [] => false
  | c :: l => startsFold (c :: l) || hasFold l

/-- True when the list begins with a CRLF that is immediately followed by
    a fold, i.e. with `\r\n\r\n[ \t]`. -/
def startsCrlfFold : List Char → Bool
  | '\r' :: '\n' :: l => startsFold l
  | _ => false

/-- True when the list contains `\r\n\r\n[ \t]` anywhere: a CRLF directly
    preceding a folded line. -/
def hasCrlfFold : List Char → Bool
  | [] => false
  | c :: l => startsCrlfFold (c :: l) || hasCrlfFold l

/-- True when the list begins with a horizontal whitespace character. -/
def headIsWSP : List Char → Bool
  | c :: _ => isWSP c
  | [] => false

/-! ## Generic string utilities shared by the analysis code -/

/-- Lower-case a string character-wise (JS `toLowerCase` on the ASCII
    inputs considered). -/
def toLowerL (l : List Char) : List Char := l.map Char.toLower

/-- Upper-case a string character-wise (JS `toUpperCase` on the ASCII
    inputs considered). -/
def toUpperL (l : List Char) : List Char := l.map Char.toUpper

/-- JS `String.prototype.trim`: drop whitespace from both ends. -/
def trimWs (l : List Char) : List Char :=
  ((l.dropWhile isJsWs).reverse.dropWhile isJsWs).reverse

/-- Consume a literal `pat` case-insensitively at the head of `l`
    (a `/.../i` regex literal), returning the remainder on success. -/
def stripCI : List Char → List Char → Option (List Char)
  | [], l => some l
  | _ :: _, [] => none
  | p :: ps, c :: cs => if c.toLower = p.toLower then stripCI ps cs else none

/-- JS `str.split(/\r?\n/)`: split at every CRLF or lone LF, removing the
    separator.  `acc` is the current piece, reversed. -/
def splitLinesAux : List Char → List Char → List (List Char)
  | acc, [] => [acc.reverse]
  | acc, '\r' :: '\n' :: rest => acc.reverse :: splitLinesAux [] rest
  | acc, '\n' :: rest => acc.reverse :: splitLinesAux [] rest
  | acc, c :: rest => splitLinesAux (c :: acc) rest

/-- The lines of a header block, as in `block.split(/\r?\n/)`. -/
def splitLines (l : List Char) : List (List Char) := splitLinesAux [] l

/-- The character class `[A-Za-z-]` of the block-splitting lookahead. -/
def isAlphaDash (c : Char) : Bool := c.isAlpha || c = '-'

/-- The lookahead `(?=[A-Za-z-]+:)`: a nonempty run of letters or dashes
    followed by a colon.  The class excludes `:`, so the greedy run is
    forced and the lookahead holds iff the maximal run is nonempty and is
    followed by `:`. -/
def lookColon (l : List Char) : Bool :=
  (match l with
   | c :: _ => isAlphaDash c
   | [] => false)
  && (match l.dropWhile isAlphaDash with
      | ':' :: _ => true
      | _ => false)

/-- JS `unfolded.split(/\r?\n(?=[A-Za-z-]+:)/)` from
    `parseReceivingChainWithWarnings`: split at every newline that is
    followed by a header-name-and-colon, removing the newline.  When the
    lookahead fails after a CRLF it also fails for the lone-LF match at
    the next position (both check the same position), so both characters
    are kept together. -/
def splitBlocksAux : List Char → List Char → List (List Char)
  | acc, [] => [acc.reverse]
  | acc, '\r' :: '\n' :: rest =>
      if lookColon rest then acc.reverse :: splitBlocksAux [] rest
      else splitBlocksAux ('\n' :: '\r' :: acc) rest
  | acc, '\n' :: rest =>
      if lookColon rest then acc.reverse :: splitBlocksAux [] rest
      else splitBlocksAux ('\n' :: acc) rest
  | acc, c :: rest => splitBlocksAux (c :: acc) rest

/-- The header blocks of unfolded text. -/
def splitBlocks (l : List Char) : List (List Char) := splitBlocksAux [] l

/-- Strip the leading label of a Received-family block:
    `fullHeader.replace(/^received:\s*/i, '')` (anchored, so the label is
    removed together with the greedy whitespace run after it, or the
    string is returned unchanged). -/
def stripLabel (label : List Char) (l : List Char) : List Char :=
  match stripCI label l with
  | some rest => rest.dropWhile isJsWs
  | none => l

/-- One block of the extraction loop in `parseReceivingChainWithWarnings`:
    its physical lines rejoined with single spaces and the matching label
    stripped, then trimmed. -/
def blockValue (label : List Char) (b : List Char) : List Char :=
  trimWs (stripLabel label (List.intercalate [' '] (splitLines b)))

/-- The extraction loop of `parseReceivingChainWithWarnings`: walk the
    blocks in order; a block whose trimmed first line starts (after
    lower-casing) with `received:` contributes to the first component,
    else one starting with `x-received:` contributes to the second. -/
def collectHeaders : List (List Char) → List (List Char) × List (List Char)
  | [] => ([], [])
  | b :: bs =>
      let rx := collectHeaders bs
      let firstLine := trimWs ((splitLines b).headD [])
      if ("received:".toList).isPrefixOf (toLowerL firstLine) then
        (blockValue ("received:".toList) b :: rx.1, rx.2)
      else if ("x-received:".toList).isPrefixOf (toLowerL firstLine) then
        (rx.1, blockValue ("x-received:".toList) b :: rx.2)
      else rx

/-- The Received header values of raw header text, in order of
    appearance. -/
def receivedOf (raw : List Char) : List (List Char) :=
  (collectHeaders (splitBlocks (unfoldHeaders raw))).1

/-- The X-Received header values of raw header text, in order of
    appearance. -/
def xReceivedOf (raw : List Char) : List (List Char) :=
  (collectHeaders (splitBlocks (unfoldHeaders raw))).2

/-! ## The hop grammar regex `RX`

`RX = /(?:^|\s)from\s+(?<from>.+?)\s+by\s+(?<by>.+?)(?:\s+with\s+(?<with>.+?))?(?:\s+id\s+(?<id>.+?))?(?:\s+for\s+(?<for>.+?))?\s*;\s*(?<date>.+)$/i`

The source only ever runs `RX` on `cleanHeader`, whose whitespace has
been collapsed (`header.replace(/\s+/g, ' ').trim()`), so every `\s+` in
the pattern matches exactly one space and `\s*` at most one.  The
matchers below reproduce the JS backtracking order on such strings:
leftmost start, lazy (shortest-first) `.+?` groups, optional groups
preferring presence, each lazy extension retried only after the entire
continuation fails. -/

/-- The JS `.` (dot) class: any character except a line terminator. -/
def isDotC (c : Char) : Bool := !(c = '\n' || c = '\r' || c = ' ' || c = ' ')

/-- Lazy nonempty dot-run: try the shortest value first, calling the
    continuation on the remainder, and extend one character at a time
    while the whole continuation fails. -/
def lazyScan (cont : List Char → Option β) : List Char → Option (List Char × β)
  | [] => none
  | c :: rest =>
      if isDotC c then
        match cont rest with
        | some b => some ([c], b)
        | none =>
            match lazyScan cont rest with
            | some (v, b) => some (c :: v, b)
            | none => none
      else none

/-- The tail `\s*;\s*(?<date>.+)$` after the optional value after the
    semicolon separator position, returning the date capture. -/
def afterSemi (t : List Char) : Option (List Char) :=
  match t with
  | ' ' :: c :: rest => if (c :: rest).all isDotC then some (c :: rest) else none
  | [' '] => some [' ']
  | [] => none
  | _ => if t.all isDotC then some t else none

/-- The separator `\s*;\s*(?<date>.+)$`. -/
def sepDate : List Char → Option (List Char)
  | ' ' :: ';' :: t => afterSemi t
  | ';' :: t => afterSemi t
  | _ => none

/-- The optional group `(?:\s+for\s+(?<for>.+?))?` followed by the
    date separator; presence is preferred. -/
def pOptFor (r : List Char) : Option (Option (List Char) × List Char) :=
  (match r with
   | ' ' :: r1 =>
     match stripCI ("for".toList) r1 with
     | some (' ' :: r2) =>
       match lazyScan sepDate r2 with
       | some (v, d) => some (some v, d)
       | none => none
     | _ => none
   | _ => none).orElse
    (fun _ => (sepDate r).map fun d => (none, d))

/-- The optional group `(?:\s+id\s+(?<id>.+?))?` followed by the rest of
    the pattern. -/
def pOptId (r : List Char) : Option (Option (List Char) × Option (List Char) × List Char) :=
  (match r with
   | ' ' :: r1 =>
     match stripCI ("id".toList) r1 with
     | some (' ' :: r2) =>
       match lazyScan pOptFor r2 with
       | some (v, fd) => some (some v, fd.1, fd.2)
       | none => none
     | _ => none
   | _ => none).orElse
    (fun _ => (pOptFor r).map fun (fd : Option (List Char) × List Char) => (none, fd.1, fd.2))

/-- The optional group `(?:\s+with\s+(?<with>.+?))?` followed by the rest
    of the pattern. -/
def pOptWith (r : List Char) :
    Option (Option (List Char) × Option (List Char) × Option (List Char) × List Char) :=
  (match r with
   | ' ' :: r1 =>
     match stripCI ("with".toList) r1 with
     | some (' ' :: r2) =>
       match lazyScan pOptId r2 with
       | some (v, ifd) => some (some v, ifd.1, ifd.2.1, ifd.2.2)
       | none => none
     | _ => none
   | _ => none).orElse
    (fun _ => (pOptId r).map
      fun (ifd : Option (List Char) × Option (List Char) × List Char) =>
        (none, ifd.1, ifd.2.1, ifd.2.2))

/-- After the lazy `from` value: `\s+by\s+(?<by>.+?)` and the rest. -/
def afterFrom (r : List Char) :
    Option (List Char × Option (List Char) × Option (List Char) × Option (List Char) × List Char) :=
  match r with
  | ' ' :: r1 =>
    match stripCI ("by".toList) r1 with
    | some (' ' :: r2) =>
      match lazyScan pOptWith r2 with
      | some (b, wifd) => some (b, wifd.1, wifd.2.1, wifd.2.2.1, wifd.2.2.2)
      | none => none
    | _ => none
  | _ => none

/-- The raw captures of one `RX` match. -/
structure RawHop where
  fromV : List Char
  byV : List Char
  withV : Option (List Char)
  idV : Option (List Char)
  forV : Option (List Char)
  dateV : List Char
deriving DecidableEq, Repr

/-- `RX` anchored at the current position via the `^` alternative of
    `(?:^|\s)`: literal `from`, one space, then the lazy captures. -/
def fromPart (s : List Char) : Option RawHop :=
  match stripCI ("from".toList) s with
  | some (' ' :: r) =>
    match lazyScan afterFrom r with
    | some (f, bwifd) => some ⟨f, bwifd.1, bwifd.2.1, bwifd.2.2.1, bwifd.2.2.2.1, bwifd.2.2.2.2⟩
    | none => none
  | _ => none

/-- Later start positions of `RX`: the `\s` alternative of `(?:^|\s)`
    consumes one whitespace character, so a match can begin at any
    position whose preceding character is whitespace, tried left to
    right. -/
def rxScan : List Char → Option RawHop
  | [] => none
  | c :: rest => (if isJsWs c then fromPart rest else none).orElse fun _ => rxScan rest

/-- `RX.exec(s)`: the leftmost match. -/
def rxExec (s : List Char) : Option RawHop :=
  (fromPart s).orElse fun _ => rxScan s

/-! ## The IP regex `RX_IP`

`RX_IP = /\[(?<ip>(?:\d{1,3}\.){3}\d{1,3}|[a-f0-9:]+)\]/i` -/

/-- One `\d{1,3}` octet followed by a required delimiter: since the
    delimiter is never a digit, backtracking the greedy counter cannot
    help, so the maximal digit run must have length 1 to 3. -/
def grabOctet (l : List Char) : Option (List Char × List Char) :=
  let run := l.takeWhile Char.isDigit
  if run.length = 0 || 3 < run.length then none
  else some (run, l.drop run.length)

/-- The IPv4 alternative `(?:\d{1,3}\.){3}\d{1,3}` anchored after `[`,
    requiring the closing `]`. -/
def ipv4At (l : List Char) : Option (List Char) :=
  match grabOctet l with
  | some (o1, '.' :: r1) =>
    match grabOctet r1 with
    | some (o2, '.' :: r2) =>
      match grabOctet r2 with
      | some (o3, '.' :: r3) =>
        match grabOctet r3 with
        | some (o4, ']' :: _) => some (o1 ++ '.' :: o2 ++ '.' :: o3 ++ '.' :: o4)
        | _ => none
      | _ => none
    | _ => none
  | _ => none

/-- The class `[a-f0-9:]` under `/i`. -/
def isHexColon (c : Char) : Bool :=
  c.isDigit || ('a' ≤ c.toLower && c.toLower ≤ 'f') || c = ':'

/-- The IPv6-ish alternative `[a-f0-9:]+` anchored after `[`, requiring
    the closing `]` (the class excludes `]`, so the greedy run is
    forced). -/
def hexPartAt (l : List Char) : Option (List Char) :=
  let run := l.takeWhile isHexColon
  if run.isEmpty then none
  else
    match l.drop run.length with
    | ']' :: _ => some run
    | _ => none

/-- `RX_IP.exec`: leftmost `[`, IPv4 alternative preferred, scanning on
    past a failed candidate. -/
def findIp : List Char → Option (List Char)
  | [] => none
  | '[' :: rest =>
      ((ipv4At rest).orElse fun _ => hexPartAt rest).orElse fun _ => findIp rest
  | _ :: rest => findIp rest

/-! ## Hops and the chain parser -/

/-- One relay step (`Hop` of `received-parser.ts`).  `from` and `by` are
    Lean keywords, hence the `V` suffixes; `timestamp` is epoch
    milliseconds as delivered by the date-parsing parameter. -/
structure Hop where
  fromV : List Char
  byV : List Char
  withV : Option (List Char)
  idV : Option (List Char)
  forV : Option (List Char)
  ip : Option (List Char)
  timestamp : Option Int
  hopDurationMs : Option Int
deriving DecidableEq, Repr

/-- `header.replace(/\s+/g, ' ').trim()`: collapse whitespace runs to
    single spaces (tracked by the `inWs` flag), then trim. -/
def normWsAux : Bool → List Char → List Char
  | _, [] => []
  | inWs, c :: rest =>
      if isJsWs c then
        if inWs then normWsAux true rest else ' ' :: normWsAux true rest
      else c :: normWsAux false rest

/-- The `cleanHeader` normalization of `parseReceivingChainWithWarnings`. -/
def cleanHeader (l : List Char) : List Char := trimWs (normWsAux false l)

/-- The per-header body of the `.map` in `parseReceivingChainWithWarnings`:
    normalize, run `RX`, on a match build the hop (trimmed captures, IP
    from `from` then `by`, timestamp through the date parser, no duration
    yet); `none` models the `null` that the subsequent filter drops. -/
def mkHop (dateParse : List Char → Option Int) (header : List Char) : Option Hop :=
  match rxExec (cleanHeader header) with
  | none => none
  | some m =>
      some { fromV := trimWs m.fromV
             byV := trimWs m.byV
             withV := m.withV.map trimWs
             idV := m.idV.map trimWs
             forV := m.forV.map trimWs
             ip := (findIp m.fromV).orElse fun _ => findIp m.byV
             timestamp := dateParse m.dateV
             hopDurationMs := none }

/-- The duration loop: for each hop whose successor exists and both of
    whose timestamps are present, set `hopDurationMs` to the delta to the
    next hop (the loop reads the neighbour's timestamp, which it never
    writes, so a functional one-pass rewrite is equivalent). -/
def addDurations : List Hop → List Hop
  | h1 :: h2 :: rest =>
      (match h1.timestamp, h2.timestamp with
       | some t1, some t2 => { h1 with hopDurationMs := some (t2 - t1) }
       | _, _ => h1) :: addDurations (h2 :: rest)
  | l => l

/-- The duration combiner: the millisecond delta when both timestamps
    are present, nothing otherwise (used to state properties of
    `addDurations`). -/
def durOf : Option Int → Option Int → Option Int
  | some t1, some t2 => some (t2 - t1)
  | _, _ => none

/-- Result of the chain parser; `warnings` is `none` when the JS code
    returns `undefined` (empty warning array). -/
structure ChainParseResult where
  hops : List Hop
  warnings : Option (List (List Char))
deriving DecidableEq, Repr

/-- The warning recorded when no Received-family header exists. -/
def noRecMsg : List Char := "No 'Received' or 'X-Received' headers found".toList

/-- The warning recorded when the X-Received fallback is taken. -/
def usedXRecMsg : List Char := "Used X-Received headers (Gmail)".toList

/-- Models `parseReceivingChainWithWarnings` from `received-parser.ts`,
    parameterized by the JS `new Date` builtin (`dateParse`, returning
    epoch milliseconds, `none` when `isNaN` would hold).  Unfold, split
    into blocks, collect Received / X-Received values, pick the source
    list (Received preferred, X-Received fallback with a warning, else an
    empty result with a warning), parse each value, drop failures,
    reverse to oldest-first, and fill in durations. -/
def parseReceivingChainWithWarnings
    (dateParse : List Char → Option Int) (raw : List Char) : ChainParseResult :=
  if receivedOf raw ≠ [] then
    { hops := addDurations (((receivedOf raw).filterMap (mkHop dateParse)).reverse)
      warnings := none }
  else if xReceivedOf raw ≠ [] then
    { hops := addDurations (((xReceivedOf raw).filterMap (mkHop dateParse)).reverse)
      warnings := some [usedXRecMsg] }
  else
    { hops := [], warnings := some [noRecMsg] }

/-- Stand-in date parser used to instantiate witnesses: reads a decimal
    digit string as epoch milliseconds (the source delegates to the JS
    `Date` builtin, which is outside the repository). -/
def natDate (l : List Char) : Option Int :=
  if l ≠ [] && l.all Char.isDigit then
    some ((l.foldl (fun a c => a * 10 + (c.toNat - 48)) 0 : Nat) : Int)
  else none

/-! ## Signal extraction (`auth-parser.ts`) -/

/-- The JS `\w` class `[A-Za-z0-9_]`. -/
def isWordC (c : Char) : Bool := c.isAlpha || c.isDigit || c = '_'

/-- Scan a DKIM-Signature value for `/d=([^;\s]+)/i`: leftmost `d=` (case
    insensitive) followed by a nonempty run outside `;` and whitespace;
    on failure the scan advances one character. -/
def dkimDScan : List Char → Option (List Char)
  | [] => none
  | c :: rest =>
      (if c.toLower = 'd' then
         match rest with
         | '=' :: r2 =>
             let run := r2.takeWhile fun x => !(x == ';' || isJsWs x)
             if run.isEmpty then none else some (toLowerL run)
         | _ => none
       else none).orElse fun _ => dkimDScan rest

/-- Models `extractDkimD`: the first signature carrying a `d=` value. -/
def extractDkimD : List (List Char) → Option (List Char)
  | [] => none
  | s :: rest => (dkimDScan s).orElse fun _ => extractDkimD rest

/-- After `<`, the lazy `.*?@` then `([^>]+)>` of the Message-ID pattern:
    the nearest `@` is tried first; if no nonempty `[^>]+` followed by `>`
    follows it, the lazy run swallows the `@` and continues. -/
def midAfterLt : List Char → Option (List Char)
  | [] => none
  | '@' :: rest =>
      (let run := rest.takeWhile fun x => x != '>'
       if run.isEmpty then none
       else
         match rest.drop run.length with
         | '>' :: _ => some run
         | _ => none).orElse fun _ =>
        if isDotC '@' then midAfterLt rest else none
  | c :: rest => if isDotC c then midAfterLt rest else none

/-- Leftmost match of `/<.*?@([^>]+)>/`. -/
def midScan : List Char → Option (List Char)
  | [] => none
  | '<' :: rest => (midAfterLt rest).orElse fun _ => midScan rest
  | _ :: rest => midScan rest

/-- Models `extractMessageIdDomain`: the captured domain, lower-cased. -/
def extractMessageIdDomain : Option (List Char) → Option (List Char)
  | none => none
  | some mid => (midScan mid).map toLowerL

/-- Leftmost match of `/<([^>]+)>/` (the bracketed address part of a
    Return-Path value). -/
def bracketScan : List Char → Option (List Char)
  | [] => none
  | '<' :: rest =>
      (let run := rest.takeWhile fun x => x != '>'
       if run.isEmpty then none
       else
         match rest.drop run.length with
         | '>' :: _ => some run
         | _ => none).orElse fun _ => bracketScan rest
  | _ :: rest => bracketScan rest

/-- `/@([^@]+)$/` on the bracketed address: the text after the last `@`,
    provided it is nonempty (an earlier `@` always has a later `@` inside
    the would-be capture, so only the last one can match). -/
def lastAtDomain (email : List Char) : Option (List Char) :=
  let pre := email.reverse.takeWhile fun x => x != '@'
  if pre.length = email.length then none
  else if pre.isEmpty then none
  else some (toLowerL pre.reverse)

/-- Leftmost match of `/@([^@\s]+)/` on a plain Return-Path value. -/
def firstAtDomain : List Char → Option (List Char)
  | [] => none
  | '@' :: rest =>
      (let run := rest.takeWhile fun x => !(x == '@' || isJsWs x)
       if run.isEmpty then none else some (toLowerL run)).orElse fun _ =>
        firstAtDomain rest
  | _ :: rest => firstAtDomain rest

/-- Models `extractReturnPathDomain`: bracketed form preferred (and,
    if bracketed, no fallback to the plain form). -/
def extractReturnPathDomain (rp : List Char) : Option (List Char) :=
  match bracketScan rp with
  | some email => lastAtDomain email
  | none => firstAtDomain rp

/-- The optional parenthetical `(?:\s+\(([^)]+)\))?` after a mechanism
    result: a nonempty whitespace run, `(`, a nonempty run outside `)`,
    and `)`. -/
def parenAfter (r : List Char) : Option (List Char) :=
  let ws := r.takeWhile isJsWs
  if ws.isEmpty then none
  else
    match r.drop ws.length with
    | '(' :: r2 =>
        let run := r2.takeWhile fun x => x != ')'
        if run.isEmpty then none
        else
          match r2.drop run.length with
          | ')' :: _ => some run
          | _ => none
    | _ => none

/-- Leftmost match of `/mech=(\w+)(?:\s+\(([^)]+)\))?/i`, as used for
    `spf`, `dkim` and `dmarc` in `parseAuthenticationResults`; yields the
    result word and the optional parenthetical detail. -/
def mechScan (mech : List Char) : List Char → Option (List Char × Option (List Char))
  | [] => none
  | l@(_ :: rest) =>
      (match stripCI mech l with
       | some ('=' :: r2) =>
           let run := r2.takeWhile isWordC
           if run.isEmpty then none
           else some (run, parenAfter (r2.drop run.length))
       | _ => none).orElse fun _ => mechScan mech rest

/-- Models `AuthResults`: each mechanism as (result, optional detail). -/
structure AuthResults where
  spf : Option (List Char × Option (List Char)) := none
  dkim : Option (List Char × Option (List Char)) := none
  dmarc : Option (List Char × Option (List Char)) := none
deriving DecidableEq, Repr

/-- Models `parseAuthenticationResults`: only the first (most recent)
    Authentication-Results value is consulted. -/
def parseAuthenticationResults : List (List Char) → AuthResults
  | [] => {}
  | v :: _ =>
      { spf := mechScan ("spf".toList) v
        dkim := mechScan ("dkim".toList) v
        dmarc := mechScan ("dmarc".toList) v }

/-- One clause of `extractXProviderSignals`: the normalized signal tokens
    contributed by a single (lower-cased) header name; the seven `if`
    clauses of the source are independent, in order. -/
def xSigsFor (name : List Char) : List (List Char) :=
  let n := toLowerL name
  (if ("x-sg-".toList).isPrefixOf n || n == "x-sg-eid".toList then
     [("X-SG-".toList) ++ toUpperL (n.drop 5)] else []) ++
  (if ("x-mailgun-".toList).isPrefixOf n then
     [("X-Mailgun-".toList) ++ toUpperL (n.drop 10)] else []) ++
  (if ("x-mj-".toList).isPrefixOf n then
     [("X-MJ-".toList) ++ toUpperL (n.drop 4)] else []) ++
  (if n == "x-ses-outgoing".toList || ("x-ses-".toList).isPrefixOf n then
     [("X-SES-".toList) ++ toUpperL (n.drop 6)] else []) ++
  (if ("x-ms-exchange-".toList).isPrefixOf n then
     [("X-MS-Exchange-".toList) ++ toUpperL (n.drop 14)] else []) ++
  (if ("x-pm-".toList).isPrefixOf n || n == "x-postmark-tag".toList then
     [("X-PM-".toList) ++ toUpperL (n.drop 5)] else []) ++
  (if ("x-sp-".toList).isPrefixOf n || n == "x-spam-score".toList then
     [("X-SP-".toList) ++ toUpperL (n.drop 5)] else [])

/-- JS `hay.includes(needle)` substring test, by scanning. -/
def isSubstr (needle : List Char) : List Char → Bool
  | [] => needle.isEmpty
  | c :: rest => needle.isPrefixOf (c :: rest) || isSubstr needle rest

/-- Models `extractXProviderSignals` over the (ordered) header map. -/
def extractXProviderSignals (m : List (List Char × List (List Char))) : List (List Char) :=
  (m.map fun p => xSigsFor p.1).flatten

/-! ## The classifier (`esp-detector.ts`) -/

/-- The static `DOMAIN_TO_PROVIDER` table, in declaration order. -/
def DOMAIN_TO_PROVIDER : List (List Char × String) :=
  [("amazonses.com".toList, "Amazon SES"),
   ("sendgrid.net".toList, "SendGrid"),
   ("mailgun.org".toList, "Mailgun"),
   ("sparkpostmail.com".toList, "SparkPost"),
   ("mailjet.com".toList, "Mailjet"),
   ("postmarkapp.com".toList, "Postmark"),
   ("protection.outlook.com".toList, "Microsoft 365/Outlook"),
   ("outlook.com".toList, "Microsoft 365/Outlook"),
   ("smtp.office365.com".toList, "Microsoft 365/Outlook"),
   ("zohomail.com".toList, "Zoho"),
   ("zoho.com".toList, "Zoho"),
   ("google.com".toList, "Gmail"),
   ("gmail.com".toList, "Gmail"),
   ("yahoo.com".toList, "Yahoo"),
   ("yahoo-inc.com".toList, "Yahoo")]

/-- `DOMAIN_TO_PROVIDER[domain]`: exact key lookup. -/
def domainToProvider (d : List Char) : Option String :=
  (DOMAIN_TO_PROVIDER.find? fun p => p.1 == d).map fun p => p.2

/-- Every provider display name that can ever be scored. -/
def PROVIDER_NAMES : List String :=
  ["Amazon SES", "SendGrid", "Mailgun", "SparkPost", "Mailjet", "Postmark",
   "Microsoft 365/Outlook", "Zoho", "Gmail", "Yahoo"]

/-- `providerScores[p] = (providerScores[p] || 0) + n`: JS object keys
    keep insertion order, so an existing key is updated in place and a
    new key is appended. -/
def bump (scores : List (String × Nat)) (p : String) (n : Nat) : List (String × Nat) :=
  if scores.any fun q => q.1 == p then
    scores.map fun q => if q.1 == p then (q.1, q.2 + n) else q
  else scores ++ [(p, n)]

/-- `signals[k] = v` on a JS object: overwrite in place or append. -/
def setSig (sigs : List (String × List Char)) (k : String) (v : List Char) :
    List (String × List Char) :=
  if sigs.any fun q => q.1 == k then
    sigs.map fun q => if q.1 == k then (k, v) else q
  else sigs ++ [(k, v)]

/-- The mutable locals of `detectESP` (`signals`, `reasons`,
    `providerScores`), threaded through the signal stages. -/
structure DState where
  signals : List (String × List Char)
  reasons : List (List Char)
  scores : List (String × Nat)
deriving DecidableEq, Repr

/-- Models `headersToMap` from `header-utils.ts`: group values by name,
    preserving first-seen key order and value order. -/
def headersToMap (hs : List (List Char × List Char)) : List (List Char × List (List Char)) :=
  hs.foldl
    (fun m p =>
      if m.any fun q => q.1 == p.1 then
        m.map fun q => if q.1 == p.1 then (q.1, q.2 ++ [p.2]) else q
      else m ++ [(p.1, [p.2])])
    []

/-- The normalization at the top of `detectESP`: entries of the caller's
    header record with lower-cased names and array values joined by a
    space (a plain string value behaves like a one-element array). -/
def entriesOf (headers : List (List Char × List (List Char))) : List (List Char × List Char) :=
  headers.map fun p => (toLowerL p.1, List.intercalate [' '] p.2)

/-- `Object.entries(headersMap).map(...)`: the map flattened back to
    (name, values joined by a space) pairs, as rebuilt before each
    `getAll` call in `detectESP`. -/
def mapEntries (m : List (List Char × List (List Char))) : List (List Char × List Char) :=
  m.map fun p => (p.1, List.intercalate [' '] p.2)

/-- Models `getAll` from `header-utils.ts` (case-insensitive filter). -/
def getAll (hs : List (List Char × List Char)) (name : List Char) : List (List Char) :=
  (hs.filter fun h => h.1 == toLowerL name).map fun h => h.2

/-- The DKIM stage of `detectESP` (weight 5): record the `d=` signal and,
    when the domain maps to a provider, score it and push a reason. -/
def dkimStage (entries : List (List Char × List Char)) (st : DState) : DState :=
  match extractDkimD (getAll entries ("dkim-signature".toList)) with
  | some d =>
      let st1 : DState := { st with signals := setSig st.signals "dkim_d" d }
      match domainToProvider d with
      | some p =>
          { st1 with scores := bump st1.scores p 5
                     reasons := st1.reasons ++ [("DKIM d=".toList) ++ d] }
      | none => st1
  | none => st

/-- One iteration of the Received loop of `detectESP` (weight 4): the
    first table entry whose domain occurs in the lower-cased value wins
    (the `break`), scoring, reason and signal together. -/
def recOne (st : DState) (r : List Char) : DState :=
  match DOMAIN_TO_PROVIDER.find? (fun dp => isSubstr dp.1 (toLowerL r)) with
  | some dp =>
      { st with scores := bump st.scores dp.2 4
                reasons := st.reasons ++ [("Received via ".toList) ++ dp.1]
                signals := setSig st.signals "received_domain" dp.1 }
  | none => st

/-- The Received stage of `detectESP`: fold over all Received values. -/
def receivedStage (entries : List (List Char × List Char)) (st : DState) : DState :=
  (getAll entries ("received".toList)).foldl recOne st

/-- The Message-ID stage of `detectESP` (weight 3). -/
def midStage (mid : Option (List Char)) (st : DState) : DState :=
  match extractMessageIdDomain mid with
  | some d =>
      let st1 : DState := { st with signals := setSig st.signals "message_id_domain" d }
      match domainToProvider d with
      | some p =>
          { st1 with scores := bump st1.scores p 3
                     reasons := st1.reasons ++ [("Message-ID domain ".toList) ++ d] }
      | none => st1
  | none => st

/-- The Return-Path stage of `detectESP` (weight 2): only the first
    Return-Path value is consulted. -/
def rpStage (entries : List (List Char × List Char)) (st : DState) : DState :=
  match getAll entries ("return-path".toList) with
  | [] => st
  | rp :: _ =>
      match extractReturnPathDomain rp with
      | some d =>
          let st1 : DState := { st with signals := setSig st.signals "return_path_domain" d }
          match domainToProvider d with
          | some p =>
              { st1 with scores := bump st1.scores p 2
                         reasons := st1.reasons ++ [("Return-Path domain ".toList) ++ d] }
          | none => st1
      | none => st

/-- The `if`/`else if` chain mapping one X signal token to a provider in
    `detectESP` (substring tests, in source order; SparkPost tokens fall
    through unmapped). -/
def xProviderOf (sig : List Char) : Option String :=
  if isSubstr ("SG-".toList) sig then some "SendGrid"
  else if isSubstr ("Mailgun-".toList) sig then some "Mailgun"
  else if isSubstr ("MJ-".toList) sig then some "Mailjet"
  else if isSubstr ("SES-".toList) sig then some "Amazon SES"
  else if isSubstr ("MS-Exchange-".toList) sig then some "Microsoft 365/Outlook"
  else if isSubstr ("PM-".toList) sig then some "Postmark"
  else none

/-- One iteration of the X-signal loop of `detectESP` (weight 3). -/
def xOne (st : DState) (sig : List Char) : DState :=
  match xProviderOf sig with
  | some p =>
      { st with scores := bump st.scores p 3
                reasons := st.reasons ++ [sig ++ (" present".toList)] }
  | none => st

/-- The X-header stage of `detectESP`: when any signal token exists,
    record the joined `x_headers` signal and fold the scoring loop. -/
def xStage (m : List (List Char × List (List Char))) (st : DState) : DState :=
  let xs := extractXProviderSignals m
  if xs.isEmpty then st
  else
    let st1 : DState :=
      { st with signals := setSig st.signals "x_headers" (List.intercalate (", ".toList) xs) }
    xs.foldl xOne st1

/-- The SPF domain used by the fallback stage: the parenthetical detail
    of the `spf=` clause of the first Authentication-Results value. -/
def spfDomainOf (entries : List (List Char × List Char)) : Option (List Char) :=
  match (parseAuthenticationResults (getAll entries ("authentication-results".toList))).spf with
  | some (_, some d) => some d
  | _ => none

/-- The SPF fallback stage of `detectESP` (weight 1). -/
def spfStage (entries : List (List Char × List Char)) (st : DState) : DState :=
  match spfDomainOf entries with
  | some d =>
      match domainToProvider d with
      | some p =>
          { st with scores := bump st.scores p 1
                    reasons := st.reasons ++ [("SPF domain ".toList) ++ d] }
      | none => st
  | none => st

/-- The normalized header map built at the top of `detectESP`. -/
def detectMap (headers : List (List Char × List (List Char))) :
    List (List Char × List (List Char)) :=
  headersToMap (entriesOf headers)

/-- The classifier state after the five non-SPF stages, in source order:
    DKIM, Received, Message-ID, Return-Path, X-headers. -/
def detectState5 (headers : List (List Char × List (List Char)))
    (mid : Option (List Char)) : DState :=
  xStage (detectMap headers)
    (rpStage (mapEntries (detectMap headers))
      (midStage mid
        (receivedStage (mapEntries (detectMap headers))
          (dkimStage (mapEntries (detectMap headers)) ⟨[], [], []⟩))))

/-- The full classifier state of `detectESP`, SPF fallback included. -/
def detectState (headers : List (List Char × List (List Char)))
    (mid : Option (List Char)) : DState :=
  spfStage (mapEntries (detectMap headers)) (detectState5 headers mid)

/-- The winner loop of `detectESP`: strict `>` over the entries of
    `providerScores` starting from `("Unknown", 0)`, so the first entry
    carrying the maximal score wins. -/
def bestOf (scores : List (String × Nat)) : String × Nat :=
  scores.foldl (fun best pq => if pq.2 > best.2 then pq else best) ("Unknown", 0)

/-- Invariant of the classifier state: a reason has been pushed exactly
    when some provider has scored, every accumulated score is at least 1,
    and every scored key is one of the provider display names. -/
def goodState (st : DState) : Prop :=
  (st.reasons = [] ↔ st.scores = []) ∧ ∀ q ∈ st.scores, 1 ≤ q.2 ∧ q.1 ∈ PROVIDER_NAMES

/-- The result record of `detectESP`. -/
structure EspDetection where
  provider : String
  confidence : ℚ
  reasons : List (List Char)
  signals : List (String × List Char)
deriving DecidableEq, Repr

/-- Models `detectESP` from `esp-detector.ts`: run the stages, pick the
    best provider, and normalize the confidence as `min(1, best / 10)`. -/
def detectESP (headers : List (List Char × List (List Char)))
    (mid : Option (List Char)) : EspDetection :=
  let st := detectState headers mid
  let best := bestOf st.scores
  { provider := best.1
    confidence := min 1 ((best.2 : ℚ) / 10)
    reasons := st.reasons
    signals := st.signals }

/-! ## Theorems: header un-folding (claim C1) -/

theorem startsFold_inv (l : List Char) (h : startsFold l = true) :
    ∃ w r, l = '\r' :: '\n' :: w :: r ∧ isWSP w = true := by
  rw [startsFold.eq_def] at h
  split at h
  · rename_i t
    rw [startsNlWsp.eq_def] at h
    split at h
    · rename_i w r
      exact ⟨w, r, rfl, h⟩
    · exact absurd h (by simp)
  · exact absurd h (by simp)

theorem unfoldAux_fold (skip : Bool) (w : Char) (r : List Char) (hw : isWSP w = true) :
    unfoldAux skip ('\r' :: '\n' :: w :: r) = ' ' :: unfoldAux true r := by
  simp [unfoldAux, hw]

theorem unfoldAux_consF (c : Char) (rest : List Char) (h : startsFold (c :: rest) = false) :
    unfoldAux false (c :: rest) = c :: unfoldAux false rest := by
  rw [unfoldAux.eq_def]
  split
  · rename_i heq; exact absurd heq (by simp)
  · rename_i w r heq
    injection heq with h1 h2
    subst h1; subst h2
    have hw : isWSP w = false := by
      simpa [startsFold, startsNlWsp] using h
    simp [hw]
  · rename_i hne
    injection hne with h1 h2
    subst h1; subst h2
    simp

theorem unfold_head_wsp (l : List Char) (h : headIsWSP (unfoldAux false l) = true) :
    startsFold l = true ∨ headIsWSP l = true := by
  by_cases hf : startsFold l = true
  · exact Or.inl hf
  · right
    match l with
    | [] => simp [unfoldAux, headIsWSP] at h
    | c :: rest =>
      rw [unfoldAux_consF c rest (by simpa using hf)] at h
      simpa [headIsWSP] using h

theorem unfold_cons_nl (l z : List Char) (h : unfoldAux false l = '\n' :: z) :
    ∃ t, l = '\n' :: t ∧ z = unfoldAux false t := by
  match l with
  | [] => simp [unfoldAux] at h
  | c :: rest =>
    by_cases hf : startsFold (c :: rest) = true
    · obtain ⟨w, r, heq, hw⟩ := startsFold_inv _ hf
      rw [heq, unfoldAux_fold false w r hw] at h
      simp at h
    · rw [unfoldAux_consF c rest (by simpa using hf)] at h
      obtain ⟨h1, h2⟩ := List.cons.inj h
      exact ⟨rest, by rw [h1], h2.symm⟩

theorem unfoldAux_nofold (skip : Bool) (w : Char) (r : List Char) (hw : isWSP w = false) :
    unfoldAux skip ('\r' :: '\n' :: w :: r) = '\r' :: unfoldAux false ('\n' :: w :: r) := by
  simp [unfoldAux, hw]

theorem unfoldAux_cons5 (skip : Bool) (c : Char) (rest : List Char)
    (hsh : ∀ w r, c = '\r' → rest = '\n' :: w :: r → False)
    (hsk : (skip && isWSP c) = false) :
    unfoldAux skip (c :: rest) = c :: unfoldAux false rest := by
  rw [unfoldAux.eq_def]
  split
  · rename_i heq; exact absurd heq (by simp)
  · rename_i w r heq
    obtain ⟨h1, h2⟩ := List.cons.inj heq
    exact (hsh w r h1 h2).elim
  · rename_i hne
    obtain ⟨h1, h2⟩ := List.cons.inj hne
    subst h1; subst h2
    simp [hsk]

theorem unfoldAux_nl (skip : Bool) (r : List Char) :
    unfoldAux skip ('\n' :: r) = '\n' :: unfoldAux false r := by
  cases skip <;> simp [unfoldAux, isWSP]

theorem hasCrlfFold_tail (c : Char) (l : List Char) (h : hasCrlfFold (c :: l) = false) :
    hasCrlfFold l = false := by
  simp [hasCrlfFold] at h
  exact h.2

theorem startsNlWsp_cons (u : List Char) : startsNlWsp ('\n' :: u) = headIsWSP u := by
  cases u <;> simp [startsNlWsp, headIsWSP]

theorem unfold_id_of_nf : ∀ (skip : Bool) (l : List Char),
    skip = false → hasFold l = false → unfoldAux skip l = l := by
  intro skip l
  induction skip, l using unfoldAux.induct with
  | case1 x => intro _ _; rfl
  | case2 x w r hw ih =>
    intro _ hf
    simp [hasFold, startsFold, startsNlWsp, hw] at hf
  | case3 x w r hw ih =>
    intro hx hf
    simp only [hasFold, Bool.or_eq_false_iff] at hf
    rw [unfoldAux_nofold x w r (by simpa using hw)]
    rw [ih rfl (by simpa [hasFold] using hf.2)]
  | case4 skip c rest hsh hsk ih =>
    intro hx _
    subst hx
    simp at hsk
  | case5 skip c rest hsh hsk ih =>
    intro hx hf
    subst hx
    simp only [hasFold, Bool.or_eq_false_iff] at hf
    rw [unfoldAux_cons5 false c rest hsh (by simp)]
    rw [ih rfl hf.2]

theorem nf_unfold : ∀ (skip : Bool) (l : List Char),
    hasCrlfFold l = false → hasFold (unfoldAux skip l) = false := by
  intro skip l
  induction skip, l using unfoldAux.induct with
  | case1 x => intro _; rfl
  | case2 x w r hw ih =>
    intro h
    rw [unfoldAux_fold x w r hw]
    have hr : hasCrlfFold r = false := by
      exact hasCrlfFold_tail _ _ (hasCrlfFold_tail _ _ (hasCrlfFold_tail _ _ h))
    simp [hasFold, startsFold, ih hr]
  | case3 x w r hw ih =>
    intro h
    have hw' : isWSP w = false := by simpa using hw
    rw [unfoldAux_nofold x w r hw', unfoldAux_nl false (w :: r)]
    have htail : hasCrlfFold ('\n' :: w :: r) = false := hasCrlfFold_tail _ _ h
    have ihr := ih htail
    rw [unfoldAux_nl false (w :: r)] at ihr
    simp only [hasFold, Bool.or_eq_false_iff] at ihr ⊢
    refine ⟨?_, ?_, ihr.2⟩
    · -- startsFold ('\r' :: '\n' :: unfoldAux false (w :: r)) = false
      simp only [startsFold, startsNlWsp_cons]
      by_cases hu : headIsWSP (unfoldAux false (w :: r)) = true
      · rcases unfold_head_wsp _ hu with hsf | hhw
        · obtain ⟨w2, r2, heq, hw2⟩ := startsFold_inv _ hsf
          exfalso
          rw [heq] at h
          simp [hasCrlfFold, startsCrlfFold, startsFold, startsNlWsp, hw2] at h
        · simp [headIsWSP, hw'] at hhw
      · simpa using hu
    · simp [startsFold]
  | case4 skip c rest hsh hsk ih =>
    intro h
    have : unfoldAux skip (c :: rest) = unfoldAux true rest := by
      rw [unfoldAux.eq_def]
      split
      · rename_i heq; exact absurd heq (by simp)
      · rename_i w r heq
        obtain ⟨h1, h2⟩ := List.cons.inj heq
        exact (hsh w r h1 h2).elim
      · rename_i hne
        obtain ⟨h1, h2⟩ := List.cons.inj hne
        subst h1; subst h2
        simp [hsk]
    rw [this]
    exact ih (hasCrlfFold_tail _ _ h)
  | case5 skip c rest hsh hsk ih =>
    intro h
    rw [unfoldAux_cons5 skip c rest hsh (by simpa using hsk)]
    have ihr := ih (hasCrlfFold_tail _ _ h)
    simp only [hasFold, Bool.or_eq_false_iff]
    refine ⟨?_, ihr⟩
    by_cases hsf : startsFold (c :: unfoldAux false rest) = true
    · obtain ⟨w2, r2, heq, hw2⟩ := startsFold_inv _ hsf
      obtain ⟨h1, h2⟩ := List.cons.inj heq
      obtain ⟨t, ht, hz⟩ := unfold_cons_nl rest _ h2
      exfalso
      match t, ht, hz with
      | [], ht, hz => simp [unfoldAux] at hz
      | x :: t2, ht, _ => exact hsh x t2 h1 (by rw [ht])
    · simpa using hsf

theorem unfoldHeaders_not_idempotent_cex :
    unfoldHeaders (unfoldHeaders ("\r\n\r\n x".toList)) ≠ unfoldHeaders ("\r\n\r\n x".toList) := by
  decide

theorem unfoldHeaders_idempotent_of_no_crlf_fold (l : List Char) (h : hasCrlfFold l = false) :
    unfoldHeaders (unfoldHeaders l) = unfoldHeaders l :=
  unfold_id_of_nf false (unfoldHeaders l) rfl (nf_unfold false l h)

theorem unfoldHeaders_idempotent_witness :
    hasCrlfFold ("A: b\r\n\tc d\r\nD: e".toList) = false ∧
      unfoldHeaders (unfoldHeaders ("A: b\r\n\tc d\r\nD: e".toList)) =
        unfoldHeaders ("A: b\r\n\tc d\r\nD: e".toList) :=
  ⟨by decide, unfoldHeaders_idempotent_of_no_crlf_fold _ (by decide)⟩

/-! ## Theorems: the duration pass -/

theorem mkHop_dur_none (dp : List Char → Option Int) (h : List Char) (hp : Hop)
    (hmk : mkHop dp h = some hp) : hp.hopDurationMs = none := by
  unfold mkHop at hmk
  split at hmk
  · exact absurd hmk (by simp)
  · obtain rfl := Option.some.inj hmk
    rfl

theorem addDurations_head_ts (h : Hop) (t : List Hop) :
    ∃ (hh : 0 < (addDurations (h :: t)).length),
      ((addDurations (h :: t)).get ⟨0, hh⟩).timestamp = h.timestamp := by
  cases t with
  | nil => exact ⟨by simp [addDurations], rfl⟩
  | cons h2 t2 =>
    refine ⟨by simp [addDurations], ?_⟩
    simp only [addDurations]
    cases hts : h.timestamp <;> cases hts2 : h2.timestamp <;> simp [List.get, hts]

theorem addDurations_length (l : List Hop) : (addDurations l).length = l.length := by
  induction l with
  | nil => rfl
  | cons h t ih =>
    cases t with
    | nil => rfl
    | cons h2 t2 => simpa [addDurations] using ih

theorem addDurations_dur_eq (l : List Hop) (hn : ∀ h ∈ l, h.hopDurationMs = none) :
    ∀ i (hi : i < (addDurations l).length),
      ((addDurations l).get ⟨i, hi⟩).hopDurationMs =
        if h2 : i + 1 < (addDurations l).length then
          durOf ((addDurations l).get ⟨i, hi⟩).timestamp
            ((addDurations l).get ⟨i + 1, h2⟩).timestamp
        else none := by
  induction l with
  | nil => intro i hi; simp [addDurations] at hi
  | cons h t ih =>
    cases t with
    | nil =>
      intro i hi
      have hi0 : i = 0 := by simpa [addDurations] using hi
      subst hi0
      simp [addDurations, hn h (by simp)]
    | cons h2 t2 =>
      intro i hi
      cases i with
      | zero =>
        obtain ⟨hh, hts⟩ := addDurations_head_ts h2 t2
        simp only [addDurations] at hi ⊢
        rw [dif_pos (by simpa using Nat.succ_lt_succ hh)]
        simp only [List.get_cons_succ, List.get]
        rw [hts]
        cases h1ts : h.timestamp <;> cases h2ts : h2.timestamp <;>
          simp [durOf, h1ts, hn h (by simp)]
      | succ j =>
        have hj : j < (addDurations (h2 :: t2)).length := by
          simpa [addDurations] using hi
        have := ih (fun x hx => hn x (by simp [hx])) j hj
        simp only [addDurations, List.get_cons_succ] at hi ⊢
        rw [this]
        by_cases hc : j + 1 < (addDurations (h2 :: t2)).length
        · rw [dif_pos hc, dif_pos (by simpa using Nat.succ_lt_succ hc)]
        · rw [dif_neg hc, dif_neg (by simpa using fun hh => hc (Nat.lt_of_succ_lt_succ hh))]

theorem durOf_some_inv (a b : Option Int) (d : Int) (h : durOf a b = some d) :
    ∃ t1 t2, a = some t1 ∧ b = some t2 ∧ d = t2 - t1 := by
  cases a with
  | none => simp [durOf] at h
  | some t1 =>
    cases b with
    | none => simp [durOf] at h
    | some t2 => exact ⟨t1, t2, rfl, rfl, (Option.some.inj h).symm⟩

theorem parse_input_dur_none (dp : List Char → Option Int) (src : List (List Char)) :
    ∀ h ∈ (src.filterMap (mkHop dp)).reverse, h.hopDurationMs = none := by
  intro h hh
  rw [List.mem_reverse] at hh
  obtain ⟨a, _, hmk⟩ := List.mem_filterMap.mp hh
  exact mkHop_dur_none dp a h hmk

theorem parse_hopDuration_eq (dp : List Char → Option Int) (raw : List Char) :
    ∀ i (hi : i < (parseReceivingChainWithWarnings dp raw).hops.length),
      ((parseReceivingChainWithWarnings dp raw).hops.get ⟨i, hi⟩).hopDurationMs =
        if h2 : i + 1 < (parseReceivingChainWithWarnings dp raw).hops.length then
          durOf ((parseReceivingChainWithWarnings dp raw).hops.get ⟨i, hi⟩).timestamp
            ((parseReceivingChainWithWarnings dp raw).hops.get ⟨i + 1, h2⟩).timestamp
        else none := by
  unfold parseReceivingChainWithWarnings
  by_cases hr : receivedOf raw ≠ []
  · rw [if_pos hr]
    exact addDurations_dur_eq _ (parse_input_dur_none dp _)
  · rw [if_neg hr]
    by_cases hx : xReceivedOf raw ≠ []
    · rw [if_pos hx]
      exact addDurations_dur_eq _ (parse_input_dur_none dp _)
    · rw [if_neg hx]
      intro i hi
      simp at hi

/-- Claim C3: a hop's `hopDurationMs` is set exactly when the next hop
    exists and both hops carry timestamps, in which case it is the
    (possibly negative, unclamped) millisecond delta `next - current`;
    in particular the last hop never carries a duration. -/
theorem hopDuration_iff_consecutive_timestamps
    (dp : List Char → Option Int) (raw : List Char)
    (i : ℕ) (hi : i < (parseReceivingChainWithWarnings dp raw).hops.length) :
    ((parseReceivingChainWithWarnings dp raw).hops.get ⟨i, hi⟩).hopDurationMs =
      if h2 : i + 1 < (parseReceivingChainWithWarnings dp raw).hops.length then
        durOf ((parseReceivingChainWithWarnings dp raw).hops.get ⟨i, hi⟩).timestamp
          ((parseReceivingChainWithWarnings dp raw).hops.get ⟨i + 1, h2⟩).timestamp
      else none :=
  parse_hopDuration_eq dp raw i hi

/-- Witness for C3 at a concrete two-hop input: the first hop's duration
    is the millisecond delta 300 - 100 = 200 and the last hop has none. -/
theorem hopDuration_iff_consecutive_timestamps_witness :
    0 < (parseReceivingChainWithWarnings natDate
          ("Received: from a by b; 300\r\nReceived: from c by d; 100".toList)).hops.length ∧
    ((parseReceivingChainWithWarnings natDate
          ("Received: from a by b; 300\r\nReceived: from c by d; 100".toList)).hops.map
        Hop.hopDurationMs) = [some 200, none] :=
  ⟨by decide, by
    have h0 := hopDuration_iff_consecutive_timestamps natDate
      ("Received: from a by b; 300\r\nReceived: from c by d; 100".toList) 0 (by decide)
    revert h0
    decide⟩

/-- Counterexample to claim C4: on a two-hop input whose first (newest
    position) Received value carries the earlier timestamp, the computed
    duration is present and strictly negative. -/
theorem hopDuration_negative_cex :
    ((parseReceivingChainWithWarnings natDate
        ("Received: from a by b; 100\r\nReceived: from c by d; 200".toList)).hops.map
      Hop.hopDurationMs) = [some (-100), none] ∧ ((-100 : Int) < 0) :=
  ⟨by decide, by decide⟩

/-- Claim C4 as amended: whenever `hopDurationMs` is present it equals
    the timestamp delta to the next hop — which may be negative (clock
    skew is preserved, not clamped), so only the delta equation holds,
    not non-negativity. -/
theorem hopDuration_present_is_delta
    (dp : List Char → Option Int) (raw : List Char)
    (i : ℕ) (hi : i < (parseReceivingChainWithWarnings dp raw).hops.length)
    (d : Int)
    (hd : ((parseReceivingChainWithWarnings dp raw).hops.get ⟨i, hi⟩).hopDurationMs = some d) :
    ∃ (h2 : i + 1 < (parseReceivingChainWithWarnings dp raw).hops.length) (t1 t2 : Int),
      ((parseReceivingChainWithWarnings dp raw).hops.get ⟨i, hi⟩).timestamp = some t1 ∧
      ((parseReceivingChainWithWarnings dp raw).hops.get ⟨i + 1, h2⟩).timestamp = some t2 ∧
      d = t2 - t1 := by
  have heq := parse_hopDuration_eq dp raw i hi
  rw [hd] at heq
  by_cases h2 : i + 1 < (parseReceivingChainWithWarnings dp raw).hops.length
  · rw [dif_pos h2] at heq
    obtain ⟨t1, t2, ht1, ht2, hdd⟩ := durOf_some_inv _ _ _ heq.symm
    exact ⟨h2, t1, t2, ht1, ht2, hdd⟩
  · rw [dif_neg h2] at heq
    exact absurd heq (by simp)

/-- Witness for the amended C4 at the counterexample input: the present
    duration -100 equals 100 - 200. -/
theorem hopDuration_present_is_delta_witness :
    0 < (parseReceivingChainWithWarnings natDate
          ("Received: from a by b; 100\r\nReceived: from c by d; 200".toList)).hops.length ∧
    ∃ (h2 : 0 + 1 < (parseReceivingChainWithWarnings natDate
          ("Received: from a by b; 100\r\nReceived: from c by d; 200".toList)).hops.length)
      (t1 t2 : Int),
      ((parseReceivingChainWithWarnings natDate
          ("Received: from a by b; 100\r\nReceived: from c by d; 200".toList)).hops.get
          ⟨0, by decide⟩).timestamp = some t1 ∧
      ((parseReceivingChainWithWarnings natDate
          ("Received: from a by b; 100\r\nReceived: from c by d; 200".toList)).hops.get
          ⟨0 + 1, h2⟩).timestamp = some t2 ∧
      (-100 : Int) = t2 - t1 :=
  ⟨by decide,
   hopDuration_present_is_delta natDate
     ("Received: from a by b; 100\r\nReceived: from c by d; 200".toList) 0 (by decide)
     (-100) (by decide)⟩

/-- Claim C5: with no Received and no X-Received header blocks, the
    parser returns empty hops together with a non-empty warnings list
    (never an error: the embedding is a total function). -/
theorem parse_no_received_empty_with_warning
    (dp : List Char → Option Int) (raw : List Char)
    (hr : receivedOf raw = []) (hx : xReceivedOf raw = []) :
    (parseReceivingChainWithWarnings dp raw).hops = [] ∧
    ∃ w, (parseReceivingChainWithWarnings dp raw).warnings = some w ∧ w ≠ [] := by
  unfold parseReceivingChainWithWarnings
  rw [if_neg (by simpa using hr), if_neg (by simpa using hx)]
  exact ⟨rfl, [noRecMsg], rfl, by decide⟩

/-- Witness for C5 at the empty input. -/
theorem parse_no_received_empty_with_warning_witness :
    receivedOf ("".toList) = [] ∧ xReceivedOf ("".toList) = [] ∧
    ((parseReceivingChainWithWarnings natDate ("".toList)).hops = [] ∧
     ∃ w, (parseReceivingChainWithWarnings natDate ("".toList)).warnings = some w ∧ w ≠ []) :=
  ⟨by decide, by decide,
   parse_no_received_empty_with_warning natDate ("".toList) (by decide) (by decide)⟩

/-- Counterexample to claim C6: with only an X-Received header the
    warning actually recorded is "Used X-Received headers (Gmail)", and
    the exact string "Used X-Received headers" is not an element of the
    warnings list (it is only a proper prefix of the recorded warning). -/
theorem xReceived_warning_string_cex :
    receivedOf ("X-Received: from a by b; 100".toList) = [] ∧
    xReceivedOf ("X-Received: from a by b; 100".toList) ≠ [] ∧
    (parseReceivingChainWithWarnings natDate
        ("X-Received: from a by b; 100".toList)).warnings =
      some ["Used X-Received headers (Gmail)".toList] ∧
    ((parseReceivingChainWithWarnings natDate
        ("X-Received: from a by b; 100".toList)).warnings.map
      fun w => w.contains ("Used X-Received headers".toList)) = some false :=
  ⟨by decide, by decide, by decide, by decide⟩

/-- Claim C6 as amended: with zero Received values and at least one
    X-Received value, the hops are parsed from the X-Received values and
    the warnings list is exactly ["Used X-Received headers (Gmail)"]
    (the claim's warning text is a proper prefix of the actual one). -/
theorem parse_xReceived_fallback
    (dp : List Char → Option Int) (raw : List Char)
    (hr : receivedOf raw = []) (hx : xReceivedOf raw ≠ []) :
    parseReceivingChainWithWarnings dp raw =
      { hops := addDurations (((xReceivedOf raw).filterMap (mkHop dp)).reverse)
        warnings := some [usedXRecMsg] } := by
  unfold parseReceivingChainWithWarnings
  rw [if_neg (by simpa using hr), if_pos hx]

/-- Witness for the amended C6. -/
theorem parse_xReceived_fallback_witness :
    receivedOf ("X-Received: from e by f; 70".toList) = [] ∧
    xReceivedOf ("X-Received: from e by f; 70".toList) ≠ [] ∧
    parseReceivingChainWithWarnings natDate ("X-Received: from e by f; 70".toList) =
      { hops := addDurations ((((xReceivedOf ("X-Received: from e by f; 70".toList))).filterMap
          (mkHop natDate)).reverse)
        warnings := some [usedXRecMsg] } :=
  ⟨by decide, by decide,
   parse_xReceived_fallback natDate ("X-Received: from e by f; 70".toList)
     (by decide) (by decide)⟩

/-- Counterexample to claim C9: both Received values match the hop
    grammar, yet the parser (which reverses unconditionally and never
    sorts) returns timestamps 250 then 100, violating
    `hops[0].timestamp <= hops[1].timestamp`. -/
theorem two_hop_order_cex :
    receivedOf ("Received: from a by b; 100\r\nReceived: from c by d; 250".toList) =
      ["from a by b; 100".toList, "from c by d; 250".toList] ∧
    (mkHop natDate ("from a by b; 100".toList)).isSome = true ∧
    (mkHop natDate ("from c by d; 250".toList)).isSome = true ∧
    ((parseReceivingChainWithWarnings natDate
        ("Received: from a by b; 100\r\nReceived: from c by d; 250".toList)).hops.map
      Hop.timestamp) = [some 250, some 100] ∧
    ¬ ((250 : Int) ≤ 100) :=
  ⟨by decide, by decide, by decide, by decide, by decide⟩

/-- Claim C9 as amended: two grammar-matching Received values yield
    exactly two hops, in reverse order of appearance (oldest→newest only
    under the newest-first emission convention); the timestamp ordering
    `hops[0].timestamp <= hops[1].timestamp` is exactly the statement
    that the first-appearing value's timestamp is at least the
    second-appearing one's, which the parser does not enforce. -/
theorem parse_two_received_reversed
    (dp : List Char → Option Int) (raw : List Char) (h1 h2 : List Char) (p1 p2 : Hop)
    (hrec : receivedOf raw = [h1, h2])
    (hm1 : mkHop dp h1 = some p1) (hm2 : mkHop dp h2 = some p2) :
    (parseReceivingChainWithWarnings dp raw).hops.length = 2 ∧
    ((parseReceivingChainWithWarnings dp raw).hops.map Hop.timestamp) =
      [p2.timestamp, p1.timestamp] ∧
    ((parseReceivingChainWithWarnings dp raw).hops.map Hop.fromV) = [p2.fromV, p1.fromV] ∧
    ((parseReceivingChainWithWarnings dp raw).hops.map Hop.byV) = [p2.byV, p1.byV] := by
  have hh : (parseReceivingChainWithWarnings dp raw).hops = addDurations [p2, p1] := by
    unfold parseReceivingChainWithWarnings
    rw [if_pos (by simp [hrec])]
    rw [hrec]
    simp [List.filterMap_cons, hm1, hm2]
  rw [hh]
  rcases hts2 : p2.timestamp with _ | t2 <;> rcases hts1 : p1.timestamp with _ | t1 <;>
    simp [addDurations, hts1, hts2]

/-- Witness for the amended C9 at a concrete input. -/
theorem parse_two_received_reversed_witness :
    receivedOf ("Received: from a by b; 100\r\nReceived: from c by d; 250".toList) =
      ["from a by b; 100".toList, "from c by d; 250".toList] ∧
    ((parseReceivingChainWithWarnings natDate
        ("Received: from a by b; 100\r\nReceived: from c by d; 250".toList)).hops.length = 2 ∧
     ((parseReceivingChainWithWarnings natDate
        ("Received: from a by b; 100\r\nReceived: from c by d; 250".toList)).hops.map
        Hop.timestamp) = [some 250, some 100] ∧
     ((parseReceivingChainWithWarnings natDate
        ("Received: from a by b; 100\r\nReceived: from c by d; 250".toList)).hops.map
        Hop.fromV) = ["c".toList, "a".toList] ∧
     ((parseReceivingChainWithWarnings natDate
        ("Received: from a by b; 100\r\nReceived: from c by d; 250".toList)).hops.map
        Hop.byV) = ["d".toList, "b".toList]) :=
  ⟨by decide,
   parse_two_received_reversed natDate
     ("Received: from a by b; 100\r\nReceived: from c by d; 250".toList)
     ("from a by b; 100".toList) ("from c by d; 250".toList)
     ⟨"a".toList, "b".toList, none, none, none, none, some 100, none⟩
     ⟨"c".toList, "d".toList, none, none, none, none, some 250, none⟩
     (by decide) (by decide) (by decide)⟩

/-! ## Theorems: the classifier -/

theorem foldBest_cases (s : List (String × Nat)) :
    ∀ acc : String × Nat,
      (s.foldl (fun best pq => if pq.2 > best.2 then pq else best) acc = acc ∧
        ∀ q ∈ s, q.2 ≤ acc.2) ∨
      (∃ i, ∃ hi : i < s.length,
        s.foldl (fun best pq => if pq.2 > best.2 then pq else best) acc = s.get ⟨i, hi⟩ ∧
        acc.2 < (s.get ⟨i, hi⟩).2 ∧
        (∀ j (hj : j < i), (s.get ⟨j, Nat.lt_trans hj hi⟩).2 < (s.get ⟨i, hi⟩).2) ∧
        (∀ q ∈ s, q.2 ≤ (s.get ⟨i, hi⟩).2)) := by
  induction s with
  | nil => intro acc; exact Or.inl ⟨rfl, by simp⟩
  | cons q s' ih =>
    intro acc
    by_cases hq : q.2 > acc.2
    · have step : (q :: s').foldl (fun best pq => if pq.2 > best.2 then pq else best) acc =
          s'.foldl (fun best pq => if pq.2 > best.2 then pq else best) q := by
        simp [List.foldl_cons, hq]
      rcases ih q with ⟨heq, hall⟩ | ⟨i, hi, heq, hacc, hjs, hall⟩
      · refine Or.inr ⟨0, by simp, ?_, hq, by omega, ?_⟩
        · rw [step, heq]; rfl
        · intro x hx
          rcases List.mem_cons.mp hx with rfl | hx'
          · exact le_refl _
          · exact hall x hx'
      · refine Or.inr ⟨i + 1, by simpa using Nat.succ_lt_succ hi, ?_, ?_, ?_, ?_⟩
        · rw [step, heq]; rfl
        · exact lt_trans hq hacc
        · intro j hj
          cases j with
          | zero => exact hacc
          | succ j' => exact hjs j' (Nat.lt_of_succ_lt_succ hj)
        · intro x hx
          rcases List.mem_cons.mp hx with rfl | hx'
          · exact le_of_lt hacc
          · exact hall x hx'
    · have step : (q :: s').foldl (fun best pq => if pq.2 > best.2 then pq else best) acc =
          s'.foldl (fun best pq => if pq.2 > best.2 then pq else best) acc := by
        simp [List.foldl_cons, hq]
      have hqle : q.2 ≤ acc.2 := by omega
      rcases ih acc with ⟨heq, hall⟩ | ⟨i, hi, heq, hacc, hjs, hall⟩
      · refine Or.inl ⟨by rw [step, heq], ?_⟩
        intro x hx
        rcases List.mem_cons.mp hx with rfl | hx'
        · exact hqle
        · exact hall x hx'
      · refine Or.inr ⟨i + 1, by simpa using Nat.succ_lt_succ hi, ?_, hacc, ?_, ?_⟩
        · rw [step, heq]; rfl
        · intro j hj
          cases j with
          | zero => exact lt_of_le_of_lt hqle hacc
          | succ j' => exact hjs j' (Nat.lt_of_succ_lt_succ hj)
        · intro x hx
          rcases List.mem_cons.mp hx with rfl | hx'
          · exact le_trans hqle (le_of_lt hacc)
          · exact hall x hx'

theorem bump_ne_nil (scores : List (String × Nat)) (p : String) (n : Nat) :
    bump scores p n ≠ [] := by
  unfold bump
  split
  · rename_i hany
    intro hc
    rw [List.map_eq_nil_iff] at hc
    subst hc
    simp at hany
  · simp

theorem bump_vals (scores : List (String × Nat)) (p : String) (n : Nat)
    (h : ∀ q ∈ scores, 1 ≤ q.2 ∧ q.1 ∈ PROVIDER_NAMES)
    (hn : 1 ≤ n) (hp : p ∈ PROVIDER_NAMES) :
    ∀ q ∈ bump scores p n, 1 ≤ q.2 ∧ q.1 ∈ PROVIDER_NAMES := by
  unfold bump
  split
  · intro q hq
    rw [List.mem_map] at hq
    obtain ⟨q0, hq0, hmap⟩ := hq
    by_cases he : q0.1 == p
    · rw [if_pos he] at hmap
      have := h q0 hq0
      subst hmap
      exact ⟨le_trans this.1 (by omega), by rw [show q0.1 = p from by simpa using he]; exact hp⟩
    · rw [if_neg he] at hmap
      subst hmap
      exact h q0 hq0
  · intro q hq
    rcases List.mem_append.mp hq with hq' | hq'
    · exact h q hq'
    · rw [List.mem_singleton] at hq'
      subst hq'
      exact ⟨hn, hp⟩

theorem domainToProvider_names (d : List Char) (p : String)
    (h : domainToProvider d = some p) : p ∈ PROVIDER_NAMES := by
  unfold domainToProvider at h
  cases hf : DOMAIN_TO_PROVIDER.find? fun q => q.1 == d with
  | none => rw [hf] at h; simp at h
  | some q =>
    rw [hf] at h
    have hq : q ∈ DOMAIN_TO_PROVIDER := List.mem_of_find?_eq_some hf
    have hp : p = q.2 := by simpa using h.symm
    subst hp
    fin_cases hq <;> decide

theorem xProviderOf_names (sig : List Char) (p : String)
    (h : xProviderOf sig = some p) : p ∈ PROVIDER_NAMES := by
  unfold xProviderOf at h
  split_ifs at h <;> simp_all [PROVIDER_NAMES]

theorem goodState_init : goodState ⟨[], [], []⟩ := by
  constructor
  · simp
  · intro q hq; simp at hq

theorem goodState_bump_push (st : DState) (p : String) (n : Nat) (r : List Char)
    (hg : goodState st) (hn : 1 ≤ n) (hp : p ∈ PROVIDER_NAMES) :
    goodState { st with scores := bump st.scores p n, reasons := st.reasons ++ [r] } := by
  obtain ⟨hiff, hvals⟩ := hg
  constructor
  · simp [bump_ne_nil]
  · exact bump_vals st.scores p n hvals hn hp

theorem goodState_signals (st : DState) (sigs : List (String × List Char))
    (hg : goodState st) : goodState { st with signals := sigs } := hg

theorem dkimStage_good (entries : List (List Char × List Char)) (st : DState)
    (hg : goodState st) : goodState (dkimStage entries st) := by
  unfold dkimStage
  split
  · rename_i d _
    split
    · rename_i p hp
      exact goodState_bump_push _ p 5 _ (goodState_signals _ _ hg) (by omega)
        (domainToProvider_names d p hp)
    · exact goodState_signals _ _ hg
  · exact hg

theorem recOne_good (st : DState) (r : List Char) (hg : goodState st) :
    goodState (recOne st r) := by
  unfold recOne
  split
  · rename_i dp hdp
    have hmem : dp ∈ DOMAIN_TO_PROVIDER := List.mem_of_find?_eq_some hdp
    have hp : dp.2 ∈ PROVIDER_NAMES := by fin_cases hmem <;> decide
    obtain ⟨hiff, hvals⟩ := hg
    exact ⟨by simp [bump_ne_nil], bump_vals st.scores dp.2 4 hvals (by omega) hp⟩
  · exact hg

theorem receivedStage_good (entries : List (List Char × List Char)) (st : DState)
    (hg : goodState st) : goodState (receivedStage entries st) := by
  unfold receivedStage
  generalize getAll entries ("received".toList) = rs
  induction rs generalizing st with
  | nil => exact hg
  | cons r rs' ih => exact ih _ (recOne_good st r hg)

theorem midStage_good (mid : Option (List Char)) (st : DState)
    (hg : goodState st) : goodState (midStage mid st) := by
  unfold midStage
  split
  · rename_i d _
    split
    · rename_i p hp
      exact goodState_bump_push _ p 3 _ (goodState_signals _ _ hg) (by omega)
        (domainToProvider_names d p hp)
    · exact goodState_signals _ _ hg
  · exact hg

theorem rpStage_good (entries : List (List Char × List Char)) (st : DState)
    (hg : goodState st) : goodState (rpStage entries st) := by
  unfold rpStage
  split
  · exact hg
  · split
    · rename_i d _
      split
      · rename_i p hp
        exact goodState_bump_push _ p 2 _ (goodState_signals _ _ hg) (by omega)
          (domainToProvider_names d p hp)
      · exact goodState_signals _ _ hg
    · exact hg

theorem xOne_good (st : DState) (sig : List Char) (hg : goodState st) :
    goodState (xOne st sig) := by
  unfold xOne
  split
  · rename_i p hp
    exact goodState_bump_push _ p 3 _ hg (by omega) (xProviderOf_names sig p hp)
  · exact hg

theorem foldl_xOne_good (xs : List (List Char)) :
    ∀ st : DState, goodState st → goodState (xs.foldl xOne st) := by
  induction xs with
  | nil => exact fun st hg => hg
  | cons x xs' ih => exact fun st hg => ih _ (xOne_good st x hg)

theorem xStage_good (m : List (List Char × List (List Char))) (st : DState)
    (hg : goodState st) : goodState (xStage m st) := by
  unfold xStage
  by_cases he : (extractXProviderSignals m).isEmpty = true
  · simp only [he, if_true]
    exact hg
  · simp only [he, if_false]
    exact foldl_xOne_good _ _ (goodState_signals _ _ hg)

theorem spfStage_good (entries : List (List Char × List Char)) (st : DState)
    (hg : goodState st) : goodState (spfStage entries st) := by
  unfold spfStage
  split
  · rename_i d _
    split
    · rename_i p hp
      exact goodState_bump_push _ p 1 _ hg (by omega) (domainToProvider_names d p hp)
    · exact hg
  · exact hg

theorem detectState_good (headers : List (List Char × List (List Char)))
    (mid : Option (List Char)) : goodState (detectState headers mid) :=
  spfStage_good _ _ (xStage_good _ _ (rpStage_good _ _ (midStage_good _ _
    (receivedStage_good _ _ (dkimStage_good _ _ goodState_init)))))

theorem detectESP_provider_eq (headers : List (List Char × List (List Char)))
    (mid : Option (List Char)) :
    (detectESP headers mid).provider = (bestOf (detectState headers mid).scores).1 := rfl

theorem detectESP_confidence_eq (headers : List (List Char × List (List Char)))
    (mid : Option (List Char)) :
    (detectESP headers mid).confidence =
      min 1 (((bestOf (detectState headers mid).scores).2 : ℚ) / 10) := rfl

theorem detectESP_reasons_eq (headers : List (List Char × List (List Char)))
    (mid : Option (List Char)) :
    (detectESP headers mid).reasons = (detectState headers mid).reasons := rfl

theorem bestOf_nonempty (s : List (String × Nat))
    (hvals : ∀ q ∈ s, 1 ≤ q.2 ∧ q.1 ∈ PROVIDER_NAMES) (hne : s ≠ []) :
    bestOf s ∈ s ∧ 1 ≤ (bestOf s).2 ∧
    ∃ i, ∃ hi : i < s.length, bestOf s = s.get ⟨i, hi⟩ ∧
      ∀ j (hj : j < i), (s.get ⟨j, Nat.lt_trans hj hi⟩).2 < (s.get ⟨i, hi⟩).2 := by
  have hpos : 0 < s.length := List.length_pos_of_ne_nil hne
  rcases foldBest_cases s ("Unknown", 0) with ⟨_, hall⟩ | ⟨i, hi, heq, _, hjs, _⟩
  · exfalso
    have h0 := hall (s.get ⟨0, hpos⟩) (s.get_mem _ _)
    have h1 := (hvals (s.get ⟨0, hpos⟩) (s.get_mem _ _)).1
    omega
  · have hb : bestOf s = s.get ⟨i, hi⟩ := heq
    refine ⟨hb ▸ s.get_mem _ _, ?_, i, hi, hb, hjs⟩
    rw [hb]
    exact (hvals _ (s.get_mem _ _)).1

/-- Claim C10: the result names "Unknown" exactly when the confidence is
    zero, exactly when no reason was recorded: every scoring site pushes
    a reason and vice versa, every accumulated score is positive, and no
    mapped provider is called "Unknown". -/
theorem detect_unknown_iff_zero_conf_iff_no_reasons
    (headers : List (List Char × List (List Char))) (mid : Option (List Char)) :
    ((detectESP headers mid).provider = "Unknown" ↔ (detectESP headers mid).confidence = 0) ∧
    ((detectESP headers mid).confidence = 0 ↔ (detectESP headers mid).reasons = []) := by
  obtain ⟨hiff, hvals⟩ := detectState_good headers mid
  rw [detectESP_provider_eq, detectESP_confidence_eq, detectESP_reasons_eq]
  by_cases hs : (detectState headers mid).scores = []
  · rw [hs]
    constructor
    · constructor
      · intro _; norm_num [bestOf]
      · intro _; rfl
    · constructor
      · intro _; exact hiff.mpr hs
      · intro _; norm_num [bestOf]
  · obtain ⟨hmem, hone, _⟩ := bestOf_nonempty _ hvals hs
    have hname : (bestOf (detectState headers mid).scores).1 ∈ PROVIDER_NAMES :=
      (hvals _ hmem).2
    have hnu : (bestOf (detectState headers mid).scores).1 ≠ "Unknown" := by
      intro hcontra
      rw [hcontra] at hname
      revert hname
      decide
    have hposconf : 0 < min 1 (((bestOf (detectState headers mid).scores).2 : ℚ) / 10) := by
      apply lt_min
      · norm_num
      · have : (1 : ℚ) ≤ ((bestOf (detectState headers mid).scores).2 : ℚ) := by
          exact_mod_cast hone
        linarith
    constructor
    · constructor
      · intro hcontra; exact absurd hcontra hnu
      · intro hcontra; exact absurd hcontra.symm (ne_of_lt hposconf)
    · constructor
      · intro hcontra; exact absurd hcontra.symm (ne_of_lt hposconf)
      · intro hcontra; exact absurd (hiff.mp hcontra) hs

/-- Claim C8: the confidence is `min(1, bestScore/10)` where `bestScore`
    is the winning provider's accumulated score (0 when nothing scored),
    and it always lies in the closed interval [0, 1]. -/
theorem detect_confidence_formula_and_range
    (headers : List (List Char × List (List Char))) (mid : Option (List Char)) :
    (detectESP headers mid).confidence =
      min 1 (((bestOf (detectState headers mid).scores).2 : ℚ) / 10) ∧
    0 ≤ (detectESP headers mid).confidence ∧ (detectESP headers mid).confidence ≤ 1 := by
  refine ⟨rfl, ?_, ?_⟩
  · rw [detectESP_confidence_eq]
    apply le_min
    · norm_num
    · positivity
  · rw [detectESP_confidence_eq]
    exact min_le_left _ _

/-- Claim C7: when no non-SPF stage scores any provider and the SPF
    domain maps to a known provider, the single +1 score yields
    confidence 1/10, strictly below the 0.6 reliability threshold. -/
theorem spf_only_confidence_below_threshold
    (headers : List (List Char × List (List Char))) (mid : Option (List Char))
    (d : List Char) (p : String)
    (h5 : (detectState5 headers mid).scores = [])
    (hd : spfDomainOf (mapEntries (detectMap headers)) = some d)
    (hp : domainToProvider d = some p) :
    (detectESP headers mid).confidence < 0.6 := by
  have hscores : (detectState headers mid).scores = [(p, 1)] := by
    unfold detectState spfStage
    rw [hd]
    simp [hp, bump, h5]
  rw [detectESP_confidence_eq, hscores]
  norm_num [bestOf, min_def]

/-- Witness for C7: an Authentication-Results header carrying
    `spf=pass (amazonses.com)` and nothing else. -/
theorem spf_only_confidence_below_threshold_witness :
    (detectState5 [("authentication-results".toList,
        ["spf=pass (amazonses.com)".toList])] none).scores = [] ∧
    spfDomainOf (mapEntries (detectMap [("authentication-results".toList,
        ["spf=pass (amazonses.com)".toList])])) = some ("amazonses.com".toList) ∧
    domainToProvider ("amazonses.com".toList) = some "Amazon SES" ∧
    (detectESP [("authentication-results".toList,
        ["spf=pass (amazonses.com)".toList])] none).confidence < 0.6 :=
  ⟨by decide, by decide, by decide,
   spf_only_confidence_below_threshold _ none ("amazonses.com".toList) "Amazon SES"
     (by decide) (by decide) (by decide)⟩

/-- Counterexample to claim C2: with a Postmark Return-Path (+2), a
    SendGrid X-header (+3) and a Postmark SPF domain (+1) the final
    scores tie at 3, with Postmark first in insertion order because the
    source evaluates Return-Path (weight 2) before the X-header stage —
    the opposite of the order stated in the claim, which would make
    SendGrid (first contributing category X-headers) the winner. -/
theorem detect_tie_order_cex :
    (detectState [("return-path".toList, ["<a@postmarkapp.com>".toList]),
        ("x-sg-eid".toList, ["1".toList]),
        ("authentication-results".toList, ["spf=pass (postmarkapp.com)".toList])]
      none).scores = [("Postmark", 3), ("SendGrid", 3)] ∧
    (detectESP [("return-path".toList, ["<a@postmarkapp.com>".toList]),
        ("x-sg-eid".toList, ["1".toList]),
        ("authentication-results".toList, ["spf=pass (postmarkapp.com)".toList])]
      none).provider = "Postmark" ∧
    ("Postmark" : String) ≠ "SendGrid" :=
  ⟨by decide, by decide, by decide⟩

/-- Claim C2 as amended: on a tie of accumulated scores the winner is
    the provider that scored first, in the source's evaluation order
    DKIM, Received, Message-ID, Return-Path, X-headers, SPF (Return-Path
    precedes the X-header stage, unlike the order the claim states):
    formally, the returned provider together with the best score is the
    first entry of the insertion-ordered score list whose score is never
    exceeded, every earlier entry scoring strictly less. -/
theorem detect_tie_first_encountered
    (headers : List (List Char × List (List Char))) (mid : Option (List Char))
    (hne : (detectState headers mid).scores ≠ []) :
    ∃ i, ∃ hi : i < (detectState headers mid).scores.length,
      (detectState headers mid).scores.get ⟨i, hi⟩ =
        ((detectESP headers mid).provider, (bestOf (detectState headers mid).scores).2) ∧
      ∀ j (hj : j < i),
        ((detectState headers mid).scores.get ⟨j, Nat.lt_trans hj hi⟩).2 <
          (bestOf (detectState headers mid).scores).2 := by
  obtain ⟨_, hvals⟩ := detectState_good headers mid
  obtain ⟨_, _, i, hi, hb, hjs⟩ := bestOf_nonempty _ hvals hne
  refine ⟨i, hi, ?_, ?_⟩
  · rw [detectESP_provider_eq, hb]
  · intro j hj
    rw [hb]
    exact hjs j hj

/-- Witness for the amended C2 at the tie input: the winning entry
    ("Postmark", 3) sits at index 0 of the score list. -/
theorem detect_tie_first_encountered_witness :
    (detectState [("return-path".toList, ["<b@postmarkapp.com>".toList]),
        ("x-sg-eid".toList, ["2".toList]),
        ("authentication-results".toList, ["spf=pass (postmarkapp.com)".toList])]
      none).scores ≠ [] ∧
    ∃ i, ∃ hi : i < (detectState [("return-path".toList, ["<b@postmarkapp.com>".toList]),
        ("x-sg-eid".toList, ["2".toList]),
        ("authentication-results".toList, ["spf=pass (postmarkapp.com)".toList])]
      none).scores.length,
      (detectState [("return-path".toList, ["<b@postmarkapp.com>".toList]),
        ("x-sg-eid".toList, ["2".toList]),
        ("authentication-results".toList, ["spf=pass (postmarkapp.com)".toList])]
      none).scores.get ⟨i, hi⟩ =
        ((detectESP [("return-path".toList, ["<b@postmarkapp.com>".toList]),
            ("x-sg-eid".toList, ["2".toList]),
            ("authentication-results".toList, ["spf=pass (postmarkapp.com)".toList])]
          none).provider,
         (bestOf (detectState [("return-path".toList, ["<b@postmarkapp.com>".toList]),
            ("x-sg-eid".toList, ["2".toList]),
            ("authentication-results".toList, ["spf=pass (postmarkapp.com)".toList])]
          none).scores).2) ∧
      ∀ j (hj : j < i),
        ((detectState [("return-path".toList, ["<b@postmarkapp.com>".toList]),
            ("x-sg-eid".toList, ["2".toList]),
            ("authentication-results".toList, ["spf=pass (postmarkapp.com)".toList])]
          none).scores.get ⟨j, Nat.lt_trans hj hi⟩).2 <
          (bestOf (detectState [("return-path".toList, ["<b@postmarkapp.com>".toList]),
            ("x-sg-eid".toList, ["2".toList]),
            ("authentication-results".toList, ["spf=pass (postmarkapp.com)".toList])]
          none).scores).2 :=
  ⟨by decide,
   detect_tie_first_encountered
     [("return-path".toList, ["<b@postmarkapp.com>".toList]),
      ("x-sg-eid".toList, ["2".toList]),
      ("authentication-results".toList, ["spf=pass (postmarkapp.com)".toList])]
     none (by decide)⟩
